import Mathlib

/-!
Cherepnina/HW_8: Allocator, Iterator and Vector.

A shallow embedding of `src/Cherepnina/HW_8/main.cpp`.

* `size_t` values are natural numbers below `2 ^ 64`; every arithmetic step the source
  performs on them wraps explicitly: `++size_` and `capacity_ * 2` are reduced modulo
  `2 ^ 64`, and `x - 1` (in `--size_`, `size - 1`, `size_ - 1`) is `2 ^ 64 - 1` for
  `x = 0`.
* Memory is a heap of arrays.  Every `new T[n]` hands out a fresh array id; an
  array remembers whether `delete[]` already ran on it, how many slots it has and
  what each slot holds.  A pointer is an array id together with an element offset.
* `delete[]` on an array that was already released is a double free: the run ends
  there.  Every operation that can reach a `delete[]` therefore returns an `Option`,
  and `none` stands for the aborted run.
* A load from a location that is inside a live array returns the stored value.  A
  load from any other location (freed array, offset out of bounds) returns what the
  `junk` function of the heap says: the program has no control over that value.  A
  store to such a location changes no array.
* The element type is `int`; no arithmetic is done on elements, so they are `Int`.
-/

namespace HW8

/-- The modulus of `size_t` arithmetic. -/
@[irreducible] def SIZE_MOD : Nat := 2 ^ 64

/-- The value of `x - 1` computed in `size_t`, for a `size_t` value `x`: `0 - 1` wraps
to `2 ^ 64 - 1`. -/
def size_t_pred (x : Nat) : Nat := if x = 0 then SIZE_MOD - 1 else x - 1

/-- The largest value of the C++ type `int`. -/
def INT_MAX : Int := 2147483647

/-- The smallest value of the C++ type `int`. -/
def INT_MIN : Int := -2147483648

/-- A `T*`: the array it points into and the element offset inside it. -/
structure Ptr where
  blk : Nat
  off : Int
deriving DecidableEq

/-- Pointer arithmetic `p + k`. -/
def Ptr.add (p : Ptr) (k : Int) : Ptr := { blk := p.blk, off := p.off + k }

/-- One array created by `new T[n]`. -/
structure Block where
  live : Bool
  len : Nat
  cell : Nat → Int

/-- The free store. `next` is the id the following `new T[n]` returns. -/
structure Heap where
  next : Nat
  blocks : Nat → Block
  junk : Ptr → Int

namespace Heap

/-- A heap on which nothing was allocated yet and every stray load reads `c`. -/
def stray (c : Int) : Heap :=
  { next := 0, blocks := fun _ => { live := false, len := 0, cell := fun _ => c }, junk := fun _ => c }

/-- A heap on which nothing was allocated yet and every stray load reads `0`. -/
def init : Heap := stray 0

/-- The location `p` lies inside a live array. -/
def valid (h : Heap) (p : Ptr) : Bool :=
  (h.blocks p.blk).live && decide (0 ≤ p.off) && decide (p.off.toNat < (h.blocks p.blk).len)

/-- The load `*p`. -/
def load (h : Heap) (p : Ptr) : Int :=
  if h.valid p then (h.blocks p.blk).cell p.off.toNat else h.junk p

/-- The store `*p = x`. -/
def store (h : Heap) (p : Ptr) (x : Int) : Heap :=
  if h.valid p then
    { h with
        blocks := Function.update h.blocks p.blk
          { (h.blocks p.blk) with cell := Function.update (h.blocks p.blk).cell p.off.toNat x } }
  else h

/-- The expression `new T[size]` for `T = int`: a fresh live array whose slots hold
indeterminate values. -/
def new_array (h : Heap) (size : Nat) : Heap × Nat :=
  ({ h with
      next := h.next + 1
      blocks := Function.update h.blocks h.next
        { live := true, len := size, cell := fun j => h.junk { blk := h.next, off := (j : Int) } } },
   h.next)

/-- The call `memcpy(dst, src, sizeof(T) * count)` on two array starts: the first `count`
slots of `dst` receive what a load from the same slot of `src` gives. -/
def memcpy (h : Heap) (dst src : Nat) (count : Nat) : Heap :=
  { h with
      blocks := Function.update h.blocks dst
        { (h.blocks dst) with
            cell := fun j => if j < count then h.load { blk := src, off := (j : Int) }
                             else (h.blocks dst).cell j } }

/-- The statement `delete[] pointer`. On a live array it releases the array; on an
array that was released before it is a double free, which ends the run: `none`. -/
def delete_array (h : Heap) (pointer : Nat) : Option Heap :=
  if (h.blocks pointer).live then
    some { h with
      blocks := Function.update h.blocks pointer { (h.blocks pointer) with live := false } }
  else none

end Heap

namespace Allocator

/-- `Allocator::allocate` (main.cpp:14-16). -/
def allocate (h : Heap) (size : Nat) : Heap × Nat :=
  h.new_array size

/-- `Allocator::reallocate` (main.cpp:7-12). The copy length `size - 1` is computed in
`size_t`. The result is `none` when `delete[] pointer` is a double free. -/
def reallocate (h : Heap) (pointer : Nat) (size : Nat) : Option (Heap × Nat) :=
  let r := allocate h size
  let h1 := r.1.memcpy r.2 pointer (size_t_pred size)
  (h1.delete_array pointer).map (fun h2 => (h2, r.2))

/-- What `reallocate(pointer, size)` needs from its caller: `size >= 1` and the array at
`pointer` is live and holds at least `size - 1` elements, the ones `memcpy` reads. -/
def reallocate_pre (h : Heap) (pointer size : Nat) : Prop :=
  1 ≤ size ∧ (h.blocks pointer).live = true ∧ size_t_pred size ≤ (h.blocks pointer).len

instance (h : Heap) (pointer size : Nat) : Decidable (reallocate_pre h pointer size) := by
  unfold reallocate_pre; infer_instance

end Allocator

/-- `Iterator<T>` (main.cpp:20-54). -/
structure Iterator where
  current_ : Ptr
  end_ : Ptr
  direction : Int

namespace Iterator

/-- `Iterator::findNext` (main.cpp:26-29). -/
def findNext (it : Iterator) : Iterator :=
  if it.current_ ≠ it.end_ then { it with current_ := it.current_.add it.direction } else it

/-- `Iterator::operator++` (main.cpp:44-48). -/
def inc (it : Iterator) : Iterator :=
  if it.current_ ≠ it.end_ then it.findNext else it

/-- `Iterator::operator*` (main.cpp:50-52). -/
def deref (h : Heap) (it : Iterator) : Int :=
  h.load it.current_

/-- `Iterator::operator==` (main.cpp:36-38). -/
def eq (h : Heap) (a other : Iterator) : Bool :=
  decide (h.load a.current_ = h.load other.current_)

/-- `Iterator::operator!=` (main.cpp:40-42). -/
def ne (h : Heap) (a other : Iterator) : Bool :=
  !(eq h a other)

/-- The call `++it` made `k` times. -/
def inc_n (it : Iterator) : Nat → Iterator
  | 0 => it
  | k + 1 => inc_n it.inc k

end Iterator

/-- `Vector<int>` (main.cpp:56-139) together with the heap its buffer lives in. -/
structure Vector where
  heap : Heap
  data : Nat
  capacity_ : Nat
  size_ : Nat

namespace Vector

/-- `Vector::Vector` (main.cpp:61-63), run on the heap `h`. -/
def new (h : Heap) : Vector :=
  let r := Allocator.allocate h 0
  { heap := r.1, data := r.2, capacity_ := 0, size_ := 0 }

/-- `Vector::empty` (main.cpp:65-67). -/
def empty (v : Vector) : Bool := decide (v.size_ = 0)

/-- `Vector::size` (main.cpp:69-71). -/
def size (v : Vector) : Nat := v.size_

/-- `Vector::capacity` (main.cpp:96-98). -/
def capacity (v : Vector) : Nat := v.capacity_

/-- `Vector::reserve` (main.cpp:73-78); `none` when the run ends inside `reallocate`. -/
def reserve (v : Vector) (new_size : Nat) : Option Vector :=
  if new_size ≤ v.capacity_ then some v
  else
    (Allocator.reallocate v.heap v.data new_size).map
      (fun r => { heap := r.1, data := r.2, capacity_ := new_size, size_ := v.size_ })

/-- The loop `for (i = size_; i < capacity_; ++i) memset(data + i, 0, sizeof(T))`
(main.cpp:91-92): `n` is the number of iterations left, `i` the loop variable. -/
def zero_fill (h : Heap) (data : Nat) (i : Nat) : Nat → Heap
  | 0 => h
  | n + 1 => zero_fill (h.store { blk := data, off := (i : Int) } 0) data (i + 1) n

/-- `Vector::resize` (main.cpp:80-94); `none` when the run ends inside `reserve`. -/
def resize (v : Vector) (count : Nat) : Option Vector :=
  if count ≤ v.size_ then some { v with size_ := count }
  else
    (if count > v.capacity_ then
        if count > v.capacity_ * 2 % SIZE_MOD then v.reserve count
        else v.reserve (v.capacity_ * 2 % SIZE_MOD)
      else some v).map
      (fun v1 =>
        { v1 with
            heap := zero_fill v1.heap v1.data v1.size_ (v1.capacity_ - v1.size_)
            size_ := count })

/-- `Vector::push_back` (main.cpp:100-108). In the growing branch the pointer that
`reallocate` returns is not stored: `data` keeps its old value. The result is `none`
when the run ends inside `reallocate`. -/
def push_back (v : Vector) (arg : Int) : Option Vector :=
  if v.capacity_ > v.size_ then
    some { v with
        heap := v.heap.store { blk := v.data, off := (v.size_ : Int) } arg
        size_ := (v.size_ + 1) % SIZE_MOD }
  else
    (Allocator.reallocate v.heap v.data ((v.size_ + 1) % SIZE_MOD)).map
      (fun r =>
        { heap := r.1.store
            { blk := v.data, off := ((size_t_pred ((v.size_ + 1) % SIZE_MOD) : Nat) : Int) } arg
          data := v.data
          capacity_ := (v.size_ + 1) % SIZE_MOD
          size_ := (v.size_ + 1) % SIZE_MOD })

/-- `Vector::pop_back` (main.cpp:110-112). -/
def pop_back (v : Vector) : Vector :=
  { v with size_ := size_t_pred v.size_ }

/-- `Vector::operator[]` (main.cpp:114-116), read through the returned reference. -/
def get (v : Vector) (num : Int) : Int :=
  v.heap.load { blk := v.data, off := num }

/-- `Vector::rbegin` (main.cpp:118-120). The index `size_ - 1` is computed in `size_t`. -/
def rbegin (v : Vector) : Iterator :=
  { current_ := { blk := v.data, off := ((size_t_pred v.size_ : Nat) : Int) }
    end_ := { blk := v.data, off := -1 }
    direction := -1 }

/-- `Vector::rend` (main.cpp:122-124). -/
def rend (v : Vector) : Iterator :=
  { current_ := { blk := v.data, off := -1 }
    end_ := { blk := v.data, off := -1 }
    direction := 1 }

/-- `Vector::begin` (main.cpp:126-128). -/
def begin (v : Vector) : Iterator :=
  { current_ := { blk := v.data, off := 0 }
    end_ := { blk := v.data, off := (v.size_ : Int) }
    direction := 1 }

/-- `Vector::end` (main.cpp:130-132). -/
def «end» (v : Vector) : Iterator :=
  { current_ := { blk := v.data, off := (v.size_ : Int) }
    end_ := { blk := v.data, off := (v.size_ : Int) }
    direction := 1 }

/-- The Vector owns its buffer: `data` was handed out by the allocator, is still
live and has at least `capacity_` slots. -/
def owns (v : Vector) : Prop :=
  v.data < v.heap.next ∧ (v.heap.blocks v.data).live = true ∧ v.capacity_ ≤ (v.heap.blocks v.data).len

instance (v : Vector) : Decidable v.owns := by
  unfold owns; infer_instance

/-- The argument of the `reserve` call in the growth branch of `resize`
(main.cpp:85-89), taken when `count > capacity_`. -/
def growth_request (capacity_ count : Nat) : Nat :=
  if count > capacity_ * 2 % SIZE_MOD then count else capacity_ * 2 % SIZE_MOD

/-- The call `alloc_.reallocate(data, new_size)` issued by `reserve(new_size)`
(main.cpp:76), as the pair of its arguments; `none` when `reserve` returns early. -/
def reserve_call (v : Vector) (new_size : Nat) : Option (Nat × Nat) :=
  if new_size ≤ v.capacity_ then none else some (v.data, new_size)

/-- The call `alloc_.reallocate(data, ++size_)` issued by `push_back` (main.cpp:105), as
the pair of its arguments; `none` when `push_back` takes the branch without growth. -/
def push_back_call (v : Vector) : Option (Nat × Nat) :=
  if v.capacity_ > v.size_ then none else some (v.data, (v.size_ + 1) % SIZE_MOD)

end Vector

/-- One call of a member function that changes a Vector. -/
inductive Call where
  | reserve (new_size : Nat)
  | resize (count : Nat)
  | push_back (arg : Int)
  | pop_back

/-- The effect of one call; `none` when the run ends inside it. -/
def Vector.call (v : Vector) : Call → Option Vector
  | Call.reserve n => v.reserve n
  | Call.resize n => v.resize n
  | Call.push_back x => v.push_back x
  | Call.pop_back => some v.pop_back

/-- The effect of a sequence of calls, made in order. -/
def Vector.run (v : Vector) : List Call → Option Vector
  | [] => some v
  | c :: cs => (v.call c).bind (fun v1 => Vector.run v1 cs)

/-- The state of a run that is known to reach its end. -/
def Vector.result (o : Option Vector) : Vector :=
  o.getD (Vector.new Heap.init)

/-- Whether a caller may make the calls of the sequence one after the other, starting in
`v`: every `size_t` argument is below `2 ^ 64` and `pop_back` is called on a non-empty
Vector only. -/
def Vector.allowed (v : Vector) : List Call → Bool
  | [] => true
  | c :: cs =>
    (match c with
      | Call.reserve n => decide (n < SIZE_MOD)
      | Call.resize n => decide (n < SIZE_MOD)
      | Call.push_back _ => true
      | Call.pop_back => decide (0 < v.size_)) &&
    (match v.call c with
      | some v1 => Vector.allowed v1 cs
      | none => true)

/-- The Vector of main.cpp:263-271 built with room reserved first: `reserve(3)`, then
`push_back` of 3, 2 and 1, on a heap whose stray loads read 7. -/
def Vector.sample : Vector :=
  Vector.result ((Vector.new (Heap.stray 7)).run
    [Call.reserve 3, Call.push_back 3, Call.push_back 2, Call.push_back 1])

/-- States a caller can reach from a newly constructed Vector with `reserve`, `resize`,
`push_back` and `pop_back`, the last one only on a non-empty Vector, each call running
to its end. Arguments of type `size_t` are below `2 ^ 64`. -/
inductive Reachable : Vector → Prop
  | new (h : Heap) : Reachable (Vector.new h)
  | reserve (v w : Vector) (n : Nat) :
      Reachable v → n < SIZE_MOD → v.reserve n = some w → Reachable w
  | resize (v w : Vector) (n : Nat) :
      Reachable v → n < SIZE_MOD → v.resize n = some w → Reachable w
  | push_back (v w : Vector) (x : Int) : Reachable v → v.push_back x = some w → Reachable w
  | pop_back (v : Vector) : Reachable v → 0 < v.size_ → Reachable v.pop_back

/-! ### `Vector<Counterable>` and the live-instance counter

`Counterable` (main.cpp:210-227) has no data members; its default constructor, copy
constructor and copy assignment add one to the global `Counter`, its destructor subtracts
one. `Counter` is a C++ `int`: an increment past `INT_MAX` or a decrement past `INT_MIN`
is undefined, and the functions below return `none` there. They thread `Counter` through
the operations of a `Vector<Counterable>`; the heap keeps the arrays (their length and
liveness), the content of the slots plays no role for the counter. -/

namespace Counterable

/-- `Counter` after `k` runs of `++Counter` (main.cpp:212). -/
def incr (Counter : Int) (k : Nat) : Option Int :=
  if Counter + (k : Int) ≤ INT_MAX then some (Counter + (k : Int)) else none

/-- `Counter` after `k` runs of `--Counter` (main.cpp:225). -/
def decr (Counter : Int) (k : Nat) : Option Int :=
  if INT_MIN ≤ Counter - (k : Int) then some (Counter - (k : Int)) else none

/-- `Allocator::allocate` for `T = Counterable`: `new T[size]` runs the default
constructor once per element. -/
def allocate (h : Heap) (Counter : Int) (size : Nat) : Option ((Heap × Nat) × Int) :=
  (incr Counter size).map (fun c => (Allocator.allocate h size, c))

/-- `Allocator::reallocate` for `T = Counterable`: `memcpy` runs no constructor, and
`delete[] pointer` runs the destructor once per element of the array it releases. -/
def reallocate (h : Heap) (Counter : Int) (pointer : Nat) (size : Nat) :
    Option ((Heap × Nat) × Int) :=
  (allocate h Counter size).bind (fun r =>
    (decr r.2 ((r.1.1.memcpy r.1.2 pointer (size_t_pred size)).blocks pointer).len).bind
      (fun c2 =>
        ((r.1.1.memcpy r.1.2 pointer (size_t_pred size)).delete_array pointer).map
          (fun h2 => ((h2, r.1.2), c2))))

/-- `Vector::Vector` for `T = Counterable`. -/
def new (h : Heap) (Counter : Int) : Option (Vector × Int) :=
  (allocate h Counter 0).map
    (fun r => ({ heap := r.1.1, data := r.1.2, capacity_ := 0, size_ := 0 }, r.2))

/-- `Vector::reserve` for `T = Counterable`. -/
def reserve (v : Vector) (Counter : Int) (new_size : Nat) : Option (Vector × Int) :=
  if new_size ≤ v.capacity_ then some (v, Counter)
  else
    (reallocate v.heap Counter v.data new_size).map
      (fun r => ({ heap := r.1.1, data := r.1.2, capacity_ := new_size, size_ := v.size_ }, r.2))

/-- `Vector::resize` for `T = Counterable`: `memset` runs no constructor. -/
def resize (v : Vector) (Counter : Int) (count : Nat) : Option (Vector × Int) :=
  if count ≤ v.size_ then some ({ v with size_ := count }, Counter)
  else
    (if count > v.capacity_ then
        if count > v.capacity_ * 2 % SIZE_MOD then reserve v Counter count
        else reserve v Counter (v.capacity_ * 2 % SIZE_MOD)
      else some (v, Counter)).map
      (fun s1 =>
        ({ s1.1 with
            heap := Vector.zero_fill s1.1.heap s1.1.data s1.1.size_ (s1.1.capacity_ - s1.1.size_)
            size_ := count }, s1.2))

end Counterable

/-! ## Arithmetic of `size_t` -/

theorem SIZE_MOD_pos : 0 < SIZE_MOD := by
  with_unfolding_all decide

theorem size_t_pred_of_pos (s : Nat) (h1 : 1 ≤ s) : size_t_pred s = s - 1 := by
  unfold size_t_pred
  rw [if_neg (by omega)]

theorem size_t_pred_lt (s : Nat) (hs : s < SIZE_MOD) : size_t_pred s < SIZE_MOD := by
  unfold size_t_pred
  split <;> omega

theorem wrap_double_lt (M c : Nat) (hc : c < M) (hw : M ≤ c * 2) : c * 2 % M < c := by
  rw [Nat.mod_eq_sub_mod hw, Nat.mod_eq_of_lt (by omega)]
  omega

/-! ## Loads and stores -/

theorem Heap.valid_iff (h : Heap) (p : Ptr) :
    h.valid p = true ↔
      (h.blocks p.blk).live = true ∧ 0 ≤ p.off ∧ p.off.toNat < (h.blocks p.blk).len := by
  simp [Heap.valid, and_assoc]

theorem Heap.valid_nat (h : Heap) (d i : Nat) (hl : (h.blocks d).live = true)
    (hi : i < (h.blocks d).len) : h.valid { blk := d, off := (i : Int) } = true := by
  rw [Heap.valid_iff]
  simp [hl, hi]

theorem Heap.load_nat (h : Heap) (d i : Nat) (hl : (h.blocks d).live = true)
    (hi : i < (h.blocks d).len) :
    h.load { blk := d, off := (i : Int) } = (h.blocks d).cell i := by
  simp [Heap.load, Heap.valid_nat h d i hl hi]

/-! ## The zero-fill loop of `resize` -/

theorem Vector.zero_fill_spec (d : Nat) :
    ∀ (k i : Nat) (h : Heap), (h.blocks d).live = true → i + k ≤ (h.blocks d).len →
      ((Vector.zero_fill h d i k).blocks d).live = true ∧
      ((Vector.zero_fill h d i k).blocks d).len = (h.blocks d).len ∧
      (Vector.zero_fill h d i k).next = h.next ∧
      (∀ j, i ≤ j → j < i + k → ((Vector.zero_fill h d i k).blocks d).cell j = 0) ∧
      (∀ j, j < i → ((Vector.zero_fill h d i k).blocks d).cell j = (h.blocks d).cell j) := by
  intro k
  induction k with
  | zero =>
    intro i h _ _
    refine ⟨by simpa [Vector.zero_fill], rfl, rfl, ?_, fun _ _ => rfl⟩
    intro j h1 h2
    omega
  | succ k ih =>
    intro i h hl hlen
    have hv : h.valid { blk := d, off := (i : Int) } = true :=
      Heap.valid_nat h d i hl (by omega)
    have hs : ((h.store { blk := d, off := (i : Int) } 0).blocks d) =
        { (h.blocks d) with cell := Function.update (h.blocks d).cell i 0 } := by
      simp [Heap.store, hv]
    have hn : (h.store { blk := d, off := (i : Int) } 0).next = h.next := by
      simp [Heap.store, hv]
    obtain ⟨a1, a2, a3, a4, a5⟩ :=
      ih (i + 1) (h.store { blk := d, off := (i : Int) } 0) (by rw [hs]; exact hl)
        (by rw [hs]; simp only; omega)
    rw [hs] at a2 a5
    simp only at a2 a5
    refine ⟨a1, a2, by rw [← hn]; exact a3, ?_, ?_⟩
    · intro j h1 h2
      by_cases hj : j = i
      · subst hj
        have := a5 j (by omega)
        simpa [Vector.zero_fill] using this
      · exact a4 j (by omega) (by omega)
    · intro j hj
      have := a5 j (by omega)
      rw [Function.update_noteq (by omega)] at this
      exact this

theorem Heap.valid_store (h : Heap) (p : Ptr) (x : Int) (q : Ptr) :
    (h.store p x).valid q = h.valid q := by
  unfold Heap.store
  split
  · obtain ⟨qb, qo⟩ := q
    by_cases hb : qb = p.blk
    · subst hb
      simp [Heap.valid]
    · simp [Heap.valid, Function.update_noteq hb]
  · rfl

theorem Heap.load_store_same (h : Heap) (p : Ptr) (x : Int) (hv : h.valid p = true) :
    (h.store p x).load p = x := by
  have hv2 : (h.store p x).valid p = true := by rw [Heap.valid_store]; exact hv
  unfold Heap.load
  rw [if_pos hv2]
  simp [Heap.store, hv]

theorem Heap.load_store_ne (h : Heap) (p : Ptr) (x : Int) (q : Ptr) (hne : q ≠ p) :
    (h.store p x).load q = h.load q := by
  unfold Heap.load
  rw [Heap.valid_store]
  by_cases hq : h.valid q = true
  · rw [if_pos hq, if_pos hq]
    unfold Heap.store
    split
    · rename_i hp
      obtain ⟨qb, qo⟩ := q
      obtain ⟨pb, po⟩ := p
      by_cases hb : qb = pb
      · subst hb
        have hoff : qo.toNat ≠ po.toNat := by
          intro he
          rw [Heap.valid_iff] at hq hp
          apply hne
          simp only [Ptr.mk.injEq, true_and]
          simp only at he hq hp
          omega
        simp [Function.update_noteq hoff]
      · simp [Function.update_noteq hb]
    · rfl
  · rw [if_neg hq, if_neg hq]
    unfold Heap.store
    split <;> rfl

/-! ## Iterator positions -/

theorem Iterator.inc_n_forward (d : Nat) (e : Int) :
    ∀ (k : Nat) (a : Int), a + (k : Int) ≤ e →
      Iterator.inc_n { current_ := { blk := d, off := a }, end_ := { blk := d, off := e },
                       direction := 1 } k =
        { current_ := { blk := d, off := a + (k : Int) }, end_ := { blk := d, off := e },
          direction := 1 } := by
  intro k
  induction k with
  | zero =>
    intro a _
    simp [Iterator.inc_n]
  | succ k ih =>
    intro a ha
    have hne : a ≠ e := by omega
    have hstep : Iterator.inc (Iterator.mk (Ptr.mk d a) (Ptr.mk d e) 1) =
        Iterator.mk (Ptr.mk d (a + 1)) (Ptr.mk d e) 1 := by
      simp [Iterator.inc, Iterator.findNext, Ptr.add, hne]
    simp only [Iterator.inc_n]
    rw [hstep, ih (a + 1) (by push_cast at ha; omega)]
    have : a + 1 + (k : Int) = a + ((k + 1 : Nat) : Int) := by push_cast; omega
    rw [this]

theorem Iterator.inc_n_backward (d : Nat) :
    ∀ (k : Nat) (a : Int), (k : Int) ≤ a + 1 →
      Iterator.inc_n { current_ := { blk := d, off := a }, end_ := { blk := d, off := -1 },
                       direction := -1 } k =
        { current_ := { blk := d, off := a - (k : Int) }, end_ := { blk := d, off := -1 },
          direction := -1 } := by
  intro k
  induction k with
  | zero =>
    intro a _
    simp [Iterator.inc_n]
  | succ k ih =>
    intro a ha
    have hne : a ≠ -1 := by push_cast at ha; omega
    have hstep : Iterator.inc (Iterator.mk (Ptr.mk d a) (Ptr.mk d (-1)) (-1)) =
        Iterator.mk (Ptr.mk d (a - 1)) (Ptr.mk d (-1)) (-1) := by
      simp [Iterator.inc, Iterator.findNext, Ptr.add, hne]
      omega
    simp only [Iterator.inc_n]
    rw [hstep, ih (a - 1) (by push_cast at ha; omega)]
    have : a - 1 - (k : Int) = a - ((k + 1 : Nat) : Int) := by push_cast; omega
    rw [this]

theorem Iterator.inc_n_at_end (k : Nat) :
    ∀ it : Iterator, it.current_ = it.end_ → it.inc_n k = it := by
  induction k with
  | zero =>
    intro it _
    rfl
  | succ k ih =>
    intro it he
    have hstep : it.inc = it := by
      simp [Iterator.inc, he]
    simp only [Iterator.inc_n]
    rw [hstep]
    exact ih it he

theorem Iterator.inc_n_add (a : Nat) :
    ∀ (it : Iterator) (b : Nat), it.inc_n (a + b) = (it.inc_n a).inc_n b := by
  induction a with
  | zero =>
    intro it b
    rw [Nat.zero_add]
    rfl
  | succ a ih =>
    intro it b
    have h1 : a + 1 + b = (a + b) + 1 := by omega
    rw [h1]
    simp only [Iterator.inc_n]
    exact ih it.inc b

theorem Vector.begin_inc_n (v : Vector) (k : Nat) :
    (v.begin.inc_n k).current_ = { blk := v.data, off := ((min k v.size_ : Nat) : Int) } := by
  by_cases hk : k ≤ v.size_
  · unfold Vector.begin
    rw [Iterator.inc_n_forward v.data (v.size_ : Int) k 0 (by omega), Int.zero_add,
      Nat.min_eq_left hk]
  · have hk2 : k = v.size_ + (k - v.size_) := by omega
    have hfull : v.begin.inc_n v.size_ =
        Iterator.mk (Ptr.mk v.data (v.size_ : Int)) (Ptr.mk v.data (v.size_ : Int)) 1 := by
      unfold Vector.begin
      rw [Iterator.inc_n_forward v.data (v.size_ : Int) v.size_ 0 (by omega), Int.zero_add]
    rw [hk2, Iterator.inc_n_add, hfull, Iterator.inc_n_at_end _ _ rfl, ← hk2,
      Nat.min_eq_right (by omega)]

/-! ## `delete[]` and `reallocate` -/

theorem Heap.delete_array_live (h : Heap) (p : Nat) (hl : (h.blocks p).live = true) :
    h.delete_array p =
      some { h with
        blocks := Function.update h.blocks p { (h.blocks p) with live := false } } := by
  unfold Heap.delete_array
  rw [if_pos hl]

theorem Heap.delete_array_dead (h : Heap) (p : Nat) (hd : (h.blocks p).live = false) :
    h.delete_array p = none := by
  unfold Heap.delete_array
  rw [if_neg (by simp [hd])]

theorem Allocator.reallocate_dead (h : Heap) (p s : Nat) (hd : (h.blocks p).live = false)
    (hne : p ≠ h.next) : Allocator.reallocate h p s = none := by
  unfold Allocator.reallocate
  have hd1 : (((Allocator.allocate h s).1.memcpy (Allocator.allocate h s).2 p
      (size_t_pred s)).blocks p).live = false := by
    simp [Allocator.allocate, Heap.new_array, Heap.memcpy, Function.update_noteq hne, hd]
  simp only [Heap.delete_array_dead _ _ hd1, Option.map_none']

theorem Allocator.reallocate_live (h : Heap) (p s : Nat) (hl : (h.blocks p).live = true)
    (hlt : p < h.next) :
    ∃ h' : Heap, Allocator.reallocate h p s = some (h', h.next) ∧ h'.next = h.next + 1 ∧
      (h'.blocks h.next).live = true ∧ (h'.blocks h.next).len = s ∧
      (∀ j : Nat, j < size_t_pred s →
        (h'.blocks h.next).cell j = h.load { blk := p, off := (j : Int) }) ∧
      (h'.blocks p).live = false := by
  have hne : p ≠ h.next := by omega
  have hne2 : h.next ≠ p := by omega
  have hl1 : (((Allocator.allocate h s).1.memcpy (Allocator.allocate h s).2 p
      (size_t_pred s)).blocks p).live = true := by
    simp [Allocator.allocate, Heap.new_array, Heap.memcpy, Function.update_noteq hne, hl]
  unfold Allocator.reallocate
  simp only [Heap.delete_array_live _ _ hl1, Option.map_some']
  refine ⟨_, rfl, ?_, ?_, ?_, ?_, ?_⟩
  · simp [Allocator.allocate, Heap.new_array, Heap.memcpy]
  · simp [Allocator.allocate, Heap.new_array, Heap.memcpy, Function.update_noteq hne2]
  · simp [Allocator.allocate, Heap.new_array, Heap.memcpy, Function.update_noteq hne2]
  · intro j hj
    simp [Allocator.allocate, Heap.new_array, Heap.memcpy, Function.update_noteq hne2,
      Function.update_noteq hne, hj, Heap.load, Heap.valid]
  · simp [Allocator.allocate, Heap.new_array, Heap.memcpy]

/-! ## `reserve` -/

theorem Vector.reserve_counters (v w : Vector) (n : Nat) (h : v.reserve n = some w) :
    w.size_ = v.size_ ∧ w.capacity_ = max v.capacity_ n := by
  unfold Vector.reserve at h
  split at h
  · rename_i hle
    simp only [Option.some.injEq] at h
    subst h
    exact ⟨rfl, (Nat.max_eq_left hle).symm⟩
  · rename_i hgt
    simp only [Option.map_eq_some'] at h
    obtain ⟨r, _, rfl⟩ := h
    exact ⟨rfl, (Nat.max_eq_right (Nat.le_of_lt (Nat.lt_of_not_le hgt))).symm⟩

theorem Vector.reserve_of_le (v : Vector) (n : Nat) (hn : n ≤ v.capacity_) :
    v.reserve n = some v := by
  unfold Vector.reserve
  rw [if_pos hn]

theorem Vector.new_owns (h : Heap) : (Vector.new h).owns := by
  simp [Vector.owns, Vector.new, Allocator.allocate, Heap.new_array]

theorem Vector.reserve_of_owns (v : Vector) (n : Nat) (ho : v.owns) :
    ∃ w : Vector, v.reserve n = some w ∧ w.owns ∧ w.size_ = v.size_ ∧
      w.capacity_ = max v.capacity_ n ∧
      (v.size_ ≤ v.capacity_ → ∀ i : Nat, i < v.size_ → w.get (i : Int) = v.get (i : Int)) := by
  by_cases hn : n ≤ v.capacity_
  · exact ⟨v, Vector.reserve_of_le v n hn, ho, rfl, (Nat.max_eq_left hn).symm,
      fun _ _ _ => rfl⟩
  · obtain ⟨o1, o2, o3⟩ := ho
    obtain ⟨h', hr, r1, r2, r3, r4, _⟩ := Allocator.reallocate_live v.heap v.data n o2 o1
    have hw : v.reserve n =
        some { heap := h', data := v.heap.next, capacity_ := n, size_ := v.size_ } := by
      unfold Vector.reserve
      rw [if_neg hn, hr]
      rfl
    refine ⟨_, hw, ⟨?_, r2, ?_⟩, rfl, ?_, ?_⟩
    · show v.heap.next < h'.next
      omega
    · show n ≤ (h'.blocks v.heap.next).len
      omega
    · show n = max v.capacity_ n
      exact (Nat.max_eq_right (by omega)).symm
    · intro hsc i hi
      have hp : size_t_pred n = n - 1 := size_t_pred_of_pos n (by omega)
      show h'.load { blk := v.heap.next, off := (i : Int) } = v.heap.load _
      rw [Heap.load_nat h' v.heap.next i r2 (by omega), r4 i (by omega)]

theorem Vector.reserve_released (v : Vector) (n : Nat)
    (hd : (v.heap.blocks v.data).live = false) (hlt : v.data < v.heap.next)
    (hn : v.capacity_ < n) : v.reserve n = none := by
  unfold Vector.reserve
  rw [if_neg (by omega), Allocator.reallocate_dead v.heap v.data n hd (by omega)]
  rfl

theorem Vector.reserve_eq_call (v : Vector) (n : Nat) :
    (v.reserve_call n = none → v.reserve n = some v) ∧
    (∀ p s : Nat, v.reserve_call n = some (p, s) →
      v.reserve n =
        (Allocator.reallocate v.heap p s).map
          (fun r => { heap := r.1, data := r.2, capacity_ := n, size_ := v.size_ })) := by
  unfold Vector.reserve_call Vector.reserve
  constructor
  · intro h
    split at h
    · rename_i hle
      rw [if_pos hle]
    · exact absurd h (by simp)
  · intro p s h
    split at h
    · exact absurd h (by simp)
    · rename_i hle
      rw [if_neg hle]
      simp only [Option.some.injEq, Prod.mk.injEq] at h
      obtain ⟨h1, h2⟩ := h
      subst h1
      subst h2
      rfl

/-! ## `resize` -/

theorem Vector.resize_of_le (v : Vector) (n : Nat) (hn : n ≤ v.size_) :
    v.resize n = some { v with size_ := n } := by
  unfold Vector.resize
  rw [if_pos hn]

theorem Vector.resize_counters (v w : Vector) (n : Nat) (h : v.resize n = some w) :
    w.size_ = n ∧
    w.capacity_ =
      (if n ≤ v.size_ then v.capacity_
       else if n > v.capacity_ then
         (if n > v.capacity_ * 2 % SIZE_MOD then n else v.capacity_ * 2 % SIZE_MOD)
       else v.capacity_) := by
  unfold Vector.resize at h
  by_cases h0 : n ≤ v.size_
  · rw [if_pos h0] at h
    simp only [Option.some.injEq] at h
    subst h
    exact ⟨rfl, by rw [if_pos h0]⟩
  · rw [if_neg h0] at h
    simp only [Option.map_eq_some'] at h
    obtain ⟨v1, hv1, rfl⟩ := h
    refine ⟨rfl, ?_⟩
    rw [if_neg h0]
    show v1.capacity_ = _
    by_cases h1 : n > v.capacity_
    · rw [if_pos h1] at hv1 ⊢
      by_cases h2 : n > v.capacity_ * 2 % SIZE_MOD
      · rw [if_pos h2] at hv1 ⊢
        rw [(Vector.reserve_counters v v1 n hv1).2]
        exact Nat.max_eq_right (Nat.le_of_lt h1)
      · rw [if_neg h2] at hv1 ⊢
        rw [(Vector.reserve_counters v v1 _ hv1).2]
        exact Nat.max_eq_right (by omega)
    · rw [if_neg h1] at hv1 ⊢
      simp only [Option.some.injEq] at hv1
      rw [← hv1]

theorem Vector.fill_of_owns (v1 : Vector) (n : Nat) (ho1 : v1.owns)
    (hsc1 : v1.size_ ≤ v1.capacity_) :
    Vector.owns (Vector.mk
        (Vector.zero_fill v1.heap v1.data v1.size_ (v1.capacity_ - v1.size_))
        v1.data v1.capacity_ n) ∧
    (∀ i : Nat, v1.size_ ≤ i → i < v1.capacity_ →
      Vector.get (Vector.mk
        (Vector.zero_fill v1.heap v1.data v1.size_ (v1.capacity_ - v1.size_))
        v1.data v1.capacity_ n) (i : Int) = 0) ∧
    (∀ i : Nat, i < v1.size_ →
      Vector.get (Vector.mk
        (Vector.zero_fill v1.heap v1.data v1.size_ (v1.capacity_ - v1.size_))
        v1.data v1.capacity_ n) (i : Int) = v1.get (i : Int)) := by
  obtain ⟨o1, o2, o3⟩ := ho1
  obtain ⟨z1, z2, z3, z4, z5⟩ :=
    Vector.zero_fill_spec v1.data (v1.capacity_ - v1.size_) v1.size_ v1.heap o2 (by omega)
  refine ⟨⟨?_, z1, ?_⟩, ?_, ?_⟩
  · show v1.data < (Vector.zero_fill v1.heap v1.data v1.size_ (v1.capacity_ - v1.size_)).next
    rw [z3]
    exact o1
  · show v1.capacity_ ≤
      ((Vector.zero_fill v1.heap v1.data v1.size_ (v1.capacity_ - v1.size_)).blocks v1.data).len
    rw [z2]
    exact o3
  · intro i h1 h2
    show (Vector.zero_fill v1.heap v1.data v1.size_ (v1.capacity_ - v1.size_)).load
      { blk := v1.data, off := (i : Int) } = 0
    rw [Heap.load_nat _ _ _ z1 (by rw [z2]; omega)]
    exact z4 i h1 (by omega)
  · intro i hi
    show (Vector.zero_fill v1.heap v1.data v1.size_ (v1.capacity_ - v1.size_)).load
      { blk := v1.data, off := (i : Int) } = v1.heap.load { blk := v1.data, off := (i : Int) }
    rw [Heap.load_nat _ _ _ z1 (by rw [z2]; omega), Heap.load_nat _ _ _ o2 (by omega)]
    exact z5 i hi

theorem Vector.resize_grow_of_owns (v : Vector) (n : Nat) (ho : v.owns) (hn : v.size_ < n) :
    ∃ w : Vector, v.resize n = some w ∧ w.owns ∧ w.size_ = n ∧ n ≤ w.capacity_ ∧
      v.capacity_ ≤ w.capacity_ ∧
      (∀ i : Nat, v.size_ ≤ i → i < w.capacity_ → w.get (i : Int) = 0) ∧
      (v.size_ ≤ v.capacity_ → ∀ i : Nat, i < v.size_ → w.get (i : Int) = v.get (i : Int)) := by
  have key : ∀ v1 : Vector, v1.owns → v1.size_ = v.size_ → n ≤ v1.capacity_ →
      v.capacity_ ≤ v1.capacity_ →
      (v.size_ ≤ v.capacity_ → ∀ i : Nat, i < v.size_ → v1.get (i : Int) = v.get (i : Int)) →
      (if n > v.capacity_ then
          if n > v.capacity_ * 2 % SIZE_MOD then v.reserve n
          else v.reserve (v.capacity_ * 2 % SIZE_MOD)
        else some v) = some v1 →
      ∃ w : Vector, v.resize n = some w ∧ w.owns ∧ w.size_ = n ∧ n ≤ w.capacity_ ∧
        v.capacity_ ≤ w.capacity_ ∧
        (∀ i : Nat, v.size_ ≤ i → i < w.capacity_ → w.get (i : Int) = 0) ∧
        (v.size_ ≤ v.capacity_ → ∀ i : Nat, i < v.size_ →
          w.get (i : Int) = v.get (i : Int)) := by
    intro v1 ho1 hs1 hc1 hc2 hg1 hsel
    obtain ⟨f1, f2, f3⟩ := Vector.fill_of_owns v1 n ho1 (by omega)
    have hw : v.resize n = some (Vector.mk
        (Vector.zero_fill v1.heap v1.data v1.size_ (v1.capacity_ - v1.size_))
        v1.data v1.capacity_ n) := by
      unfold Vector.resize
      rw [if_neg (by omega), hsel]
      rfl
    refine ⟨_, hw, f1, rfl, hc1, hc2, ?_, ?_⟩
    · intro i h1 h2
      exact f2 i (by omega) h2
    · intro hsc i hi
      rw [f3 i (by omega)]
      exact hg1 hsc i hi
  by_cases h1 : n > v.capacity_
  · by_cases h2 : n > v.capacity_ * 2 % SIZE_MOD
    · obtain ⟨w1, hw1, ow1, sw1, cw1, gw1⟩ := Vector.reserve_of_owns v n ho
      exact key w1 ow1 sw1 (by rw [cw1]; exact le_max_right _ _)
        (by rw [cw1]; exact le_max_left _ _) gw1 (by rw [if_pos h1, if_pos h2]; exact hw1)
    · obtain ⟨w1, hw1, ow1, sw1, cw1, gw1⟩ :=
        Vector.reserve_of_owns v (v.capacity_ * 2 % SIZE_MOD) ho
      exact key w1 ow1 sw1
        (by rw [cw1]; exact le_trans (Nat.le_of_not_lt h2) (le_max_right _ _))
        (by rw [cw1]; exact le_max_left _ _) gw1 (by rw [if_pos h1, if_neg h2]; exact hw1)
  · exact key v ho rfl (by omega) (le_refl _) (fun _ _ _ => rfl) (by rw [if_neg h1])

theorem Vector.resize_of_owns (v : Vector) (n : Nat) (ho : v.owns) :
    ∃ w : Vector, v.resize n = some w ∧ w.owns := by
  by_cases hn : n ≤ v.size_
  · exact ⟨_, Vector.resize_of_le v n hn, ho⟩
  · obtain ⟨w, hw, ow, _⟩ := Vector.resize_grow_of_owns v n ho (by omega)
    exact ⟨w, hw, ow⟩

theorem Vector.resize_of_le_capacity (v : Vector) (n : Nat) (hn : n ≤ v.capacity_) :
    ∃ w : Vector, v.resize n = some w ∧ w.capacity_ = v.capacity_ := by
  by_cases h0 : n ≤ v.size_
  · exact ⟨_, Vector.resize_of_le v n h0, rfl⟩
  · refine ⟨Vector.mk (Vector.zero_fill v.heap v.data v.size_ (v.capacity_ - v.size_))
        v.data v.capacity_ n, ?_, rfl⟩
    unfold Vector.resize
    rw [if_neg h0, if_neg (by omega)]
    rfl

/-! ## `push_back` and `pop_back` -/

theorem Heap.store_invalid (h : Heap) (p : Ptr) (x : Int) (hv : h.valid p = false) :
    h.store p x = h := by
  unfold Heap.store
  rw [if_neg (by simp [hv])]

theorem Heap.valid_of_dead (h : Heap) (p : Ptr) (hd : (h.blocks p.blk).live = false) :
    h.valid p = false := by
  simp [Heap.valid, hd]

theorem Vector.push_back_of_room (v : Vector) (x : Int) (hroom : v.size_ < v.capacity_) :
    v.push_back x =
      some { v with
        heap := v.heap.store { blk := v.data, off := (v.size_ : Int) } x
        size_ := (v.size_ + 1) % SIZE_MOD } := by
  unfold Vector.push_back
  rw [if_pos hroom]

theorem Vector.push_back_counters (v w : Vector) (x : Int) (h : v.push_back x = some w) :
    w.size_ = (v.size_ + 1) % SIZE_MOD ∧
    w.capacity_ = (if v.capacity_ > v.size_ then v.capacity_ else (v.size_ + 1) % SIZE_MOD) ∧
    w.data = v.data := by
  unfold Vector.push_back at h
  by_cases hroom : v.capacity_ > v.size_
  · rw [if_pos hroom] at h
    simp only [Option.some.injEq] at h
    subst h
    exact ⟨rfl, by rw [if_pos hroom], rfl⟩
  · rw [if_neg hroom] at h
    simp only [Option.map_eq_some'] at h
    obtain ⟨r, _, rfl⟩ := h
    exact ⟨rfl, by rw [if_neg hroom], rfl⟩

theorem Vector.push_back_grow_of_owns (v : Vector) (x : Int) (ho : v.owns)
    (hfull : ¬ v.capacity_ > v.size_) :
    ∃ w : Vector, v.push_back x = some w ∧ w.data = v.data ∧
      (w.heap.blocks w.data).live = false ∧ w.data < w.heap.next ∧
      w.size_ = (v.size_ + 1) % SIZE_MOD ∧ w.capacity_ = (v.size_ + 1) % SIZE_MOD := by
  obtain ⟨o1, o2, _⟩ := ho
  obtain ⟨h', hr, r1, _, _, _, r5⟩ :=
    Allocator.reallocate_live v.heap v.data ((v.size_ + 1) % SIZE_MOD) o2 o1
  have hst : h'.store
      { blk := v.data, off := ((size_t_pred ((v.size_ + 1) % SIZE_MOD) : Nat) : Int) } x = h' :=
    Heap.store_invalid h' _ x (Heap.valid_of_dead h' _ r5)
  have hw : v.push_back x =
      some (Vector.mk h' v.data ((v.size_ + 1) % SIZE_MOD) ((v.size_ + 1) % SIZE_MOD)) := by
    unfold Vector.push_back
    rw [if_neg hfull, hr]
    simp only [Option.map_some', hst]
  refine ⟨_, hw, rfl, r5, ?_, rfl, rfl⟩
  show v.data < h'.next
  omega

theorem Vector.push_back_released (v : Vector) (x : Int)
    (hd : (v.heap.blocks v.data).live = false) (hlt : v.data < v.heap.next)
    (hfull : ¬ v.capacity_ > v.size_) : v.push_back x = none := by
  unfold Vector.push_back
  rw [if_neg hfull, Allocator.reallocate_dead v.heap v.data _ hd (by omega)]
  rfl

theorem Vector.push_back_owns_of_room (v : Vector) (x : Int) (ho : v.owns)
    (hroom : v.size_ < v.capacity_) :
    ∃ w : Vector, v.push_back x = some w ∧ w.owns ∧ w.get (v.size_ : Int) = x ∧
      (∀ i : Nat, i < v.size_ → w.get (i : Int) = v.get (i : Int)) := by
  obtain ⟨o1, o2, o3⟩ := ho
  have hv : v.heap.valid { blk := v.data, off := (v.size_ : Int) } = true :=
    Heap.valid_nat v.heap v.data v.size_ o2 (by omega)
  refine ⟨_, Vector.push_back_of_room v x hroom, ⟨?_, ?_, ?_⟩, ?_, ?_⟩
  · simpa [Heap.store, hv] using o1
  · simpa [Heap.store, hv] using o2
  · simpa [Heap.store, hv] using o3
  · exact Heap.load_store_same v.heap _ x hv
  · intro i hi
    have hne : (Ptr.mk v.data (i : Int)) ≠ (Ptr.mk v.data (v.size_ : Int)) := by
      intro he
      simp only [Ptr.mk.injEq] at he
      omega
    exact Heap.load_store_ne v.heap _ x _ hne

theorem Vector.pop_back_size (v : Vector) : v.pop_back.size_ = size_t_pred v.size_ := rfl

theorem Vector.pop_back_frame (v : Vector) :
    v.pop_back.heap = v.heap ∧ v.pop_back.data = v.data ∧
    v.pop_back.capacity_ = v.capacity_ := by
  simp only [Vector.pop_back, and_self]

theorem one_lt_SIZE_MOD : 1 < SIZE_MOD := by
  with_unfolding_all decide

/-- The first `push_back` on a newly constructed Vector returns, with size and capacity 1,
and leaves `data` naming the array that `reallocate` released. -/
theorem Vector.push_back_new_dangling (h : Heap) (x : Int) :
    ∃ w : Vector, (Vector.new h).push_back x = some w ∧ w.size_ = 1 ∧ w.capacity_ = 1 ∧
      (w.heap.blocks w.data).live = false ∧ w.data < w.heap.next := by
  obtain ⟨w, hw, _, w2, w3, w4, w5⟩ :=
    Vector.push_back_grow_of_owns (Vector.new h) x (Vector.new_owns h) (by
      show ¬ (0 : Nat) > 0
      omega)
  have h1 : ((Vector.new h).size_ + 1) % SIZE_MOD = 1 := by
    show (0 + 1) % SIZE_MOD = 1
    rw [Nat.zero_add, Nat.mod_eq_of_lt one_lt_SIZE_MOD]
  rw [h1] at w4 w5
  exact ⟨w, hw, w4, w5, w2, w3⟩

/-- A second `push_back` right after the first one on a newly constructed Vector ends the
run: `reallocate` runs `delete[]` on the array the first call released. -/
theorem Vector.push_back_twice_aborts (h : Heap) (x y : Int) :
    (Vector.new h).run [Call.push_back x, Call.push_back y] = none := by
  obtain ⟨w, hw, s1, c1, d1, l1⟩ := Vector.push_back_new_dangling h x
  have h2 : w.push_back y = none :=
    Vector.push_back_released w y d1 l1 (by omega)
  simp [Vector.run, Vector.call, hw, h2]

/-! ## The invariant of the reachable states -/

theorem reachable_size_le_capacity (v : Vector) (hr : Reachable v) :
    v.size_ ≤ v.capacity_ := by
  induction hr with
  | new h => exact le_refl 0
  | reserve v w n _ _ hw ih =>
    obtain ⟨hs, hc⟩ := Vector.reserve_counters v w n hw
    rw [hs, hc]
    exact le_trans ih (le_max_left _ _)
  | resize v w n _ _ hw ih =>
    obtain ⟨hs, hc⟩ := Vector.resize_counters v w n hw
    rw [hs, hc]
    split_ifs <;> omega
  | push_back v w x _ hw _ =>
    obtain ⟨hs, hc, _⟩ := Vector.push_back_counters v w x hw
    rw [hs, hc]
    split
    · rename_i h
      exact le_trans (Nat.mod_le _ _) h
    · exact le_refl _
  | pop_back v _ hpos ih =>
    have hc : v.pop_back.capacity_ = v.capacity_ := (Vector.pop_back_frame v).2.2
    rw [Vector.pop_back_size, size_t_pred_of_pos v.size_ hpos, hc]
    omega

theorem Vector.push_back_call_numeric (v : Vector) (hr : Reachable v)
    (hlt : v.size_ + 1 < SIZE_MOD) (p s : Nat) (hcall : v.push_back_call = some (p, s)) :
    p = v.data ∧ 1 ≤ s ∧ size_t_pred s ≤ v.capacity_ := by
  have hsc := reachable_size_le_capacity v hr
  unfold Vector.push_back_call at hcall
  split at hcall
  · exact absurd hcall (by simp)
  · rename_i hng
    simp only [Option.some.injEq, Prod.mk.injEq] at hcall
    obtain ⟨h1, h2⟩ := hcall
    rw [Nat.mod_eq_of_lt hlt] at h2
    subst h2
    refine ⟨h1.symm, by omega, ?_⟩
    rw [size_t_pred_of_pos _ (by omega)]
    omega

/-! ## Runs -/

theorem Vector.result_of_isSome (o : Option Vector) (h : o.isSome = true) :
    o = some (Vector.result o) := by
  cases o with
  | none => exact absurd h (by simp)
  | some v => rfl

theorem reachable_run (cs : List Call) :
    ∀ (v w : Vector), Reachable v → v.allowed cs = true → v.run cs = some w → Reachable w := by
  induction cs with
  | nil =>
    intro v w hr _ hrun
    simp only [Vector.run, Option.some.injEq] at hrun
    rw [← hrun]
    exact hr
  | cons c cs ih =>
    intro v w hr hal hrun
    simp only [Vector.run, Option.bind_eq_some] at hrun
    obtain ⟨v1, hv1, hrest⟩ := hrun
    simp only [Vector.allowed, hv1, Bool.and_eq_true] at hal
    obtain ⟨hc, hcs⟩ := hal
    apply ih v1 w ?_ hcs hrest
    cases c with
    | reserve n =>
      exact Reachable.reserve v v1 n hr (by simpa using hc) hv1
    | resize n =>
      exact Reachable.resize v v1 n hr (by simpa using hc) hv1
    | push_back x =>
      exact Reachable.push_back v v1 x hr hv1
    | pop_back =>
      simp only [Vector.call, Option.some.injEq] at hv1
      rw [← hv1]
      exact Reachable.pop_back v hr (by simpa using hc)

theorem reachable_sample : Reachable Vector.sample :=
  reachable_run _ _ _ (Reachable.new (Heap.stray 7)) (by with_unfolding_all decide)
    (Vector.result_of_isSome _ (by with_unfolding_all decide))

theorem Vector.zero_fill_released (d : Nat) :
    ∀ (k i : Nat) (h : Heap), (h.blocks d).live = false → Vector.zero_fill h d i k = h := by
  intro k
  induction k with
  | zero =>
    intro i h _
    rfl
  | succ k ih =>
    intro i h hd
    simp only [Vector.zero_fill]
    rw [Heap.store_invalid h _ 0 (Heap.valid_of_dead h _ hd)]
    exact ih (i + 1) h hd

/-- On a Vector whose `data` names a released array, a `resize` within the capacity
returns with the heap unchanged: the zero-fill stores reach no live array. -/
theorem Vector.resize_on_released (v : Vector) (n : Nat)
    (hd : (v.heap.blocks v.data).live = false) (h1 : v.size_ < n) (h2 : n ≤ v.capacity_) :
    v.resize n = some { v with size_ := n } := by
  unfold Vector.resize
  rw [if_neg (by omega), if_neg (by omega)]
  simp only [Option.map_some', Vector.zero_fill_released v.data _ _ v.heap hd]

theorem Vector.empty_iff (v : Vector) : v.empty = true ↔ v.size = 0 := by
  simp [Vector.empty, Vector.size]

/-- After `push_back(x)`, `pop_back()` and `resize(1)` on a newly constructed Vector, on
every heap, the run has returned with size 1 and `data` names a released array. -/
theorem Vector.resize_after_push_pop (h : Heap) (x : Int) :
    ∃ v : Vector,
      (Vector.new h).run [Call.push_back x, Call.pop_back, Call.resize 1] = some v ∧
      v.size_ = 1 ∧ v.capacity_ = 1 ∧ (v.heap.blocks v.data).live = false := by
  obtain ⟨w, hw, s1, c1, d1, _⟩ := Vector.push_back_new_dangling h x
  have hp : w.pop_back.size_ = 0 := by
    rw [Vector.pop_back_size, s1, size_t_pred_of_pos 1 (le_refl 1)]
  have hr := Vector.resize_on_released w.pop_back 1 d1 (by omega) (by
    show 1 ≤ w.capacity_
    omega)
  refine ⟨{ w.pop_back with size_ := 1 }, by simp [Vector.run, Vector.call, hw, hr], rfl,
    ?_, ?_⟩
  · show w.pop_back.capacity_ = 1
    rw [(Vector.pop_back_frame w).2.2]
    exact c1
  · show (w.pop_back.heap.blocks w.pop_back.data).live = false
    rw [(Vector.pop_back_frame w).1, (Vector.pop_back_frame w).2.1]
    exact d1

/-! ## The claims -/

/-- C1, evaluated on the code: a `push_back(1)` on a newly constructed Vector returns with
size 1 but leaves `data` pointing at the array that `reallocate` deleted (the array it
returned is dropped), so the store of the pushed value reaches no live array and `v[0]`
does not read `1` back. -/
theorem C1_push_back_value_not_in_buffer :
    ∃ v : Vector, (Vector.new Heap.init).push_back 1 = some v ∧ v.size = 1 ∧
      (v.heap.blocks v.data).live = false ∧ v.get 0 ≠ 1 := by
  refine ⟨_, rfl, ?_⟩
  with_unfolding_all decide

/-- C2, evaluated on the code: after the first `push_back` on a newly constructed Vector
`size()` is 1; the second `push_back` does not return, because `reallocate` runs `delete[]`
on the array the first call already released. `size()` never becomes 2. -/
theorem C2_second_push_back_aborts :
    ((Vector.new Heap.init).run [Call.push_back 3]).map Vector.size = some 1 ∧
    (Vector.new Heap.init).run [Call.push_back 3, Call.push_back 2] = none :=
  ⟨by with_unfolding_all decide, Vector.push_back_twice_aborts Heap.init 3 2⟩

/-- C3, evaluated on the code: after `push_back(1)` on a newly constructed Vector (size 1,
capacity 1), `reserve(100)` does not return: `reallocate` runs `delete[]` on the array that
`push_back` already released. -/
theorem C3_reserve_after_push_back_aborts :
    ((Vector.new Heap.init).run [Call.push_back 1]).map (fun v => (v.size, v.capacity))
      = some (1, 1) ∧
    ((Vector.new Heap.init).run [Call.push_back 1, Call.reserve 100]).isSome = false := by
  with_unfolding_all decide

/-- C4: for `n <= size()`, `resize(n)` returns, and afterwards the size is `n`, every
element at an index below `n` is unchanged and the capacity is unchanged. -/
theorem C4_resize_shrink (v : Vector) (n : Nat) (hn : n ≤ v.size) :
    ∃ w : Vector, v.resize n = some w ∧ w.size = n ∧
      (∀ i : Nat, i < n → w.get (i : Int) = v.get (i : Int)) ∧
      w.capacity = v.capacity :=
  ⟨_, Vector.resize_of_le v n hn, rfl, fun _ _ => rfl, rfl⟩

theorem C4_resize_shrink_witness :
    ∃ w : Vector, Vector.sample.resize 2 = some w ∧ w.size = 2 ∧ w.get 1 = 2 ∧
      w.capacity = 3 := by
  obtain ⟨w, hw, h1, h2, h3⟩ :=
    C4_resize_shrink Vector.sample 2 (by with_unfolding_all decide)
  exact ⟨w, hw, h1, (h2 1 (by decide)).trans (by with_unfolding_all decide),
    h3.trans (by with_unfolding_all decide)⟩

/-- C6: the iterator `begin()` advanced `i` times, `i < size()`, dereferences to the
element `v[i]`; advanced `size()` times it stands at the position of `end()` and
`operator==` with `end()` is true; for an empty Vector `begin() == end()`. -/
theorem C6_forward_iteration (v : Vector) :
    (∀ i : Nat, i < v.size → Iterator.deref v.heap (v.begin.inc_n i) = v.get (i : Int)) ∧
    (v.begin.inc_n v.size).current_ = (Vector.«end» v).current_ ∧
    Iterator.eq v.heap (v.begin.inc_n v.size) (Vector.«end» v) = true ∧
    (v.size = 0 → Iterator.eq v.heap v.begin (Vector.«end» v) = true) := by
  have hpos : ∀ i : Nat, i ≤ v.size_ →
      v.begin.inc_n i =
        { current_ := { blk := v.data, off := (i : Int) },
          end_ := { blk := v.data, off := (v.size_ : Int) }, direction := 1 } := by
    intro i hi
    unfold Vector.begin
    rw [Iterator.inc_n_forward v.data (v.size_ : Int) i 0 (by omega), Int.zero_add]
  refine ⟨?_, ?_, ?_, ?_⟩
  · intro i hi
    rw [hpos i (Nat.le_of_lt hi)]
    rfl
  · show (v.begin.inc_n v.size_).current_ = _
    rw [hpos v.size_ (le_refl _)]
    rfl
  · show Iterator.eq v.heap (v.begin.inc_n v.size_) _ = true
    rw [hpos v.size_ (le_refl _)]
    simp [Iterator.eq, Vector.«end»]
  · intro h0
    have h0 : v.size_ = 0 := h0
    simp [Iterator.eq, Vector.«end», Vector.begin, h0]

theorem C6_forward_iteration_witness :
    Vector.sample.size = 3 ∧
    Iterator.deref Vector.sample.heap (Vector.sample.begin.inc_n 1) = 2 ∧
    Iterator.eq (Vector.new Heap.init).heap (Vector.new Heap.init).begin
      (Vector.«end» (Vector.new Heap.init)) = true :=
  ⟨by with_unfolding_all decide,
   ((C6_forward_iteration Vector.sample).1 1 (by with_unfolding_all decide)).trans
     (by with_unfolding_all decide),
   (C6_forward_iteration (Vector.new Heap.init)).2.2.2 (by with_unfolding_all decide)⟩

/-- C7: for a Vector with `size() >= 1`, the iterator `rbegin()`
advanced `i` times, `i < size()`, dereferences to the element `v[size() - 1 - i]`;
advanced `size()` times it stands at index `-1`, the position of `rend()`, and
`operator==` with `rend()` is true. -/
theorem C7_reverse_iteration (v : Vector) (h1 : 1 ≤ v.size) :
    (∀ i : Nat, i < v.size →
      Iterator.deref v.heap (v.rbegin.inc_n i) = v.get ((v.size : Int) - 1 - (i : Int))) ∧
    (v.rbegin.inc_n v.size).current_ = { blk := v.data, off := -1 } ∧
    (v.rbegin.inc_n v.size).current_ = v.rend.current_ ∧
    Iterator.eq v.heap (v.rbegin.inc_n v.size) v.rend = true := by
  have h1 : 1 ≤ v.size_ := h1
  have hcast : ((size_t_pred v.size_ : Nat) : Int) = (v.size_ : Int) - 1 := by
    rw [size_t_pred_of_pos v.size_ h1]
    omega
  have hpos : ∀ i : Nat, i ≤ v.size_ →
      v.rbegin.inc_n i =
        { current_ := { blk := v.data, off := (v.size_ : Int) - 1 - (i : Int) },
          end_ := { blk := v.data, off := -1 }, direction := -1 } := by
    intro i hi
    unfold Vector.rbegin
    rw [hcast, Iterator.inc_n_backward v.data i ((v.size_ : Int) - 1) (by omega)]
  have hlast : (v.rbegin.inc_n v.size_).current_ = { blk := v.data, off := -1 } := by
    rw [hpos v.size_ (le_refl _)]
    simp
  refine ⟨?_, hlast, hlast, ?_⟩
  · intro i hi
    rw [hpos i (Nat.le_of_lt hi)]
    rfl
  · show Iterator.eq v.heap (v.rbegin.inc_n v.size_) _ = true
    simp [Iterator.eq, hlast, Vector.rend]

theorem C7_reverse_iteration_witness :
    Iterator.deref Vector.sample.heap (Vector.sample.rbegin.inc_n 1) = 2 ∧
    Iterator.eq Vector.sample.heap (Vector.sample.rbegin.inc_n Vector.sample.size)
      Vector.sample.rend = true :=
  have h := C7_reverse_iteration Vector.sample (by with_unfolding_all decide)
  ⟨(h.1 1 (by with_unfolding_all decide)).trans (by with_unfolding_all decide), h.2.2.2⟩

/-- C8: `size() <= capacity()` holds in every state reachable from a newly constructed
Vector by `reserve`, `resize`, `push_back` and `pop_back`, where `pop_back` is only called
when `size() > 0`. -/
theorem C8_size_le_capacity (v : Vector) (hr : Reachable v) : v.size ≤ v.capacity := by
  show v.size_ ≤ v.capacity_
  induction hr with
  | new h => exact le_refl 0
  | reserve v w n _ _ hw ih =>
    obtain ⟨hs, hc⟩ := Vector.reserve_counters v w n hw
    rw [hs, hc]
    exact le_trans ih (le_max_left _ _)
  | resize v w n _ _ hw ih =>
    obtain ⟨hs, hc⟩ := Vector.resize_counters v w n hw
    rw [hs, hc]
    split_ifs <;> omega
  | push_back v w x _ hw _ =>
    obtain ⟨hs, hc, _⟩ := Vector.push_back_counters v w x hw
    rw [hs, hc]
    split
    · rename_i h
      exact le_trans (Nat.mod_le _ _) h
    · exact le_refl _
  | pop_back v _ hpos ih =>
    have hc : v.pop_back.capacity_ = v.capacity_ := (Vector.pop_back_frame v).2.2
    rw [Vector.pop_back_size, size_t_pred_of_pos v.size_ hpos, hc]
    omega

theorem C8_size_le_capacity_witness :
    Vector.sample.size = 3 ∧ Vector.sample.size ≤ Vector.sample.capacity :=
  ⟨by with_unfolding_all decide, C8_size_le_capacity Vector.sample reachable_sample⟩

/-- C9, evaluated on the code: a newly constructed Vector is empty, it is not empty after a
`push_back`, and it is empty again after one `push_back` and one `pop_back`; but two calls
of `push_back` followed by two calls of `pop_back` do not run to the end: the second
`push_back` runs `delete[]` on the array the first one released. -/
theorem C9_push_twice_pop_twice_aborts :
    (Vector.new Heap.init).empty = true ∧
    ((Vector.new Heap.init).run [Call.push_back 3]).map Vector.empty = some false ∧
    ((Vector.new Heap.init).run [Call.push_back 3, Call.pop_back]).map Vector.empty
      = some true ∧
    ((Vector.new Heap.init).run
      [Call.push_back 3, Call.push_back 2, Call.pop_back, Call.pop_back]).isSome = false := by
  with_unfolding_all decide

/-- C10: `operator==` on iterators is true exactly when the values at the two current
positions are equal, whatever the positions are, and `operator!=` is its negation. The
calls `reserve(2)` and `resize(1)` on a newly constructed Vector return, and the state
reached has `size() == 1`, `begin()` and `end()` at different positions, and
`begin() == end()` true (so `begin() != end()` false). -/
theorem C10_iterator_equality_by_value :
    (∀ (h : Heap) (a b : Iterator),
      (Iterator.eq h a b = true ↔ Iterator.deref h a = Iterator.deref h b) ∧
      Iterator.ne h a b = !Iterator.eq h a b) ∧
    (∀ h : Heap, ∃ v : Vector,
      (Vector.new h).run [Call.reserve 2, Call.resize 1] = some v ∧
      Reachable v ∧
      v.size = 1 ∧
      v.begin.current_ ≠ (Vector.«end» v).current_ ∧
      Iterator.eq v.heap v.begin (Vector.«end» v) = true ∧
      Iterator.ne v.heap v.begin (Vector.«end» v) = false) := by
  constructor
  · intro h a b
    exact ⟨by simp [Iterator.eq, Iterator.deref], rfl⟩
  · intro h
    obtain ⟨v0, hv0, ov0, sv0, cv0, _⟩ := Vector.reserve_of_owns (Vector.new h) 2
      (Vector.new_owns h)
    have sv0' : v0.size_ = 0 := sv0
    have cv0' : v0.capacity_ = 2 := by
      rw [cv0]
      rfl
    obtain ⟨v, hv, _, sv, _, cv, zv, _⟩ := Vector.resize_grow_of_owns v0 1 ov0 (by omega)
    have hreach : Reachable v :=
      Reachable.resize v0 v 1
        (Reachable.reserve (Vector.new h) v0 2 (Reachable.new h)
          (by with_unfolding_all decide) hv0)
        (by with_unfolding_all decide) hv
    have g0 := zv 0 (by omega) (by omega)
    have g1 := zv 1 (by omega) (by omega)
    have e0 : v.heap.load { blk := v.data, off := 0 } = 0 := by
      simpa [Vector.get] using g0
    have e1 : v.heap.load { blk := v.data, off := 1 } = 0 := by
      simpa [Vector.get] using g1
    refine ⟨v, ?_, hreach, sv, ?_, ?_, ?_⟩
    · simp [Vector.run, Vector.call, hv0, hv]
    · simp [Vector.begin, Vector.«end», sv]
    · simp [Iterator.eq, Vector.begin, Vector.«end», sv, e0, e1]
    · simp [Iterator.ne, Iterator.eq, Vector.begin, Vector.«end», sv, e0, e1]

/-- C11: `operator++` moves `current_` by exactly `direction` slots when
`current_ != end_` and leaves the iterator unchanged when `current_ == end_`; an iterator
at its end sentinel stays there under any number of `++`; the iterator `begin()` advanced
`k` times stands at index `min(k, size())`, never past `size()`. -/
theorem C11_iterator_advance :
    (∀ it : Iterator, it.current_ ≠ it.end_ →
      it.inc.current_ = it.current_.add it.direction ∧ it.inc.end_ = it.end_ ∧
      it.inc.direction = it.direction) ∧
    (∀ it : Iterator, it.current_ = it.end_ → it.inc = it) ∧
    (∀ (it : Iterator) (k : Nat), it.current_ = it.end_ → it.inc_n k = it) ∧
    (∀ (v : Vector) (k : Nat),
      (v.begin.inc_n k).current_ = { blk := v.data, off := ((min k v.size : Nat) : Int) } ∧
      (v.begin.inc_n k).current_.off ≤ (v.size : Int)) := by
  refine ⟨?_, ?_, ?_, ?_⟩
  · intro it hne
    simp [Iterator.inc, Iterator.findNext, hne]
  · intro it he
    simp [Iterator.inc, he]
  · intro it k he
    exact Iterator.inc_n_at_end k it he
  · intro v k
    have hpos := Vector.begin_inc_n v k
    refine ⟨hpos, ?_⟩
    rw [hpos]
    show ((min k v.size_ : Nat) : Int) ≤ (v.size_ : Int)
    have : min k v.size_ ≤ v.size_ := Nat.min_le_right _ _
    omega

theorem C11_iterator_advance_witness :
    Vector.sample.begin.inc.current_ = Vector.sample.begin.current_.add 1 ∧
    (Vector.«end» Vector.sample).inc_n 5 = Vector.«end» Vector.sample :=
  ⟨(C11_iterator_advance.1 _ (by with_unfolding_all decide)).1,
   C11_iterator_advance.2.2.1 _ 5 rfl⟩

/-- C13, evaluated on the code: after `push_back(1)` on a newly constructed Vector (size 1,
capacity 1), `resize(100)` takes the branch `reserve(100)` and does not return:
`reallocate` runs `delete[]` on the array that `push_back` already released. The capacity
never becomes `max(100, 2 * 1)`. -/
theorem C13_resize_growth_after_push_back_aborts :
    ((Vector.new Heap.init).run [Call.push_back 1]).map (fun v => (v.size, v.capacity))
      = some (1, 1) ∧
    ((Vector.new Heap.init).run [Call.push_back 1, Call.resize 100]).isSome = false := by
  with_unfolding_all decide

/-- C15, evaluated on the code: after `push_back(3)` on a newly constructed Vector (size 1,
capacity 1) neither `reserve(10)` nor `resize(5)` returns: both reach `reallocate`, which
runs `delete[]` on the array that `push_back` already released, so the element `v[0]` is
not carried over. -/
theorem C15_growth_after_push_back_aborts :
    ((Vector.new Heap.init).run [Call.push_back 3]).map (fun v => (v.size, v.capacity))
      = some (1, 1) ∧
    ((Vector.new Heap.init).run [Call.push_back 3, Call.reserve 10]).isSome = false ∧
    ((Vector.new Heap.init).run [Call.push_back 3, Call.resize 5]).isSome = false := by
  with_unfolding_all decide

/-- C16, evaluated on the code: the Vector built by `reserve(1)` and `push_back(5)` has
size 1 and `v[0] == 5`; after `push_back(7)` followed by `pop_back()` the size is 1 again,
but `data` points at the array that the growing `push_back` released, so `v[0]` does not
read `5` back. -/
theorem C16_push_pop_loses_elements :
    (∃ v : Vector,
      (Vector.new Heap.init).run [Call.reserve 1, Call.push_back 5] = some v ∧
      v.size = 1 ∧ v.get 0 = 5) ∧
    (∃ v : Vector,
      (Vector.new Heap.init).run
        [Call.reserve 1, Call.push_back 5, Call.push_back 7, Call.pop_back] = some v ∧
      v.size = 1 ∧ (v.heap.blocks v.data).live = false ∧ v.get 0 ≠ 5) := by
  refine ⟨⟨_, Vector.result_of_isSome _ (by with_unfolding_all decide), ?_⟩,
    ⟨_, Vector.result_of_isSome _ (by with_unfolding_all decide), ?_⟩⟩
  · with_unfolding_all decide
  · with_unfolding_all decide

/-- C18: in a state reachable from a newly constructed Vector whose capacity is below
`2 ^ 64 - 1` (no array of `2 ^ 64 - 1` elements can be allocated), a call of `reserve`,
`resize` or `push_back` that returns leaves `capacity()` at least as large as before;
`pop_back` leaves it equal, and a `resize` to at most the capacity returns and leaves it
equal. -/
theorem C18_capacity_monotone (v : Vector) (hr : Reachable v)
    (hcap : v.capacity + 1 < SIZE_MOD) :
    (∀ (n : Nat) (w : Vector), v.reserve n = some w → v.capacity ≤ w.capacity) ∧
    (∀ (n : Nat) (w : Vector), v.resize n = some w → v.capacity ≤ w.capacity) ∧
    (∀ (x : Int) (w : Vector), v.push_back x = some w → v.capacity ≤ w.capacity) ∧
    v.pop_back.capacity = v.capacity ∧
    (∀ n : Nat, n ≤ v.capacity →
      ∃ w : Vector, v.resize n = some w ∧ w.capacity = v.capacity) := by
  have hsc := reachable_size_le_capacity v hr
  have hcap1 : v.capacity_ + 1 < SIZE_MOD := hcap
  refine ⟨?_, ?_, ?_, ?_, ?_⟩
  · intro n w hw
    show v.capacity_ ≤ w.capacity_
    rw [(Vector.reserve_counters v w n hw).2]
    exact le_max_left _ _
  · intro n w hw
    show v.capacity_ ≤ w.capacity_
    rw [(Vector.resize_counters v w n hw).2]
    split_ifs <;> omega
  · intro x w hw
    show v.capacity_ ≤ w.capacity_
    rw [(Vector.push_back_counters v w x hw).2.1]
    split
    · exact le_refl _
    · rw [Nat.mod_eq_of_lt (by omega)]
      omega
  · exact (Vector.pop_back_frame v).2.2
  · intro n hn
    exact Vector.resize_of_le_capacity v n hn

theorem C18_capacity_monotone_witness :
    Vector.sample.capacity = 3 ∧
    (∃ w : Vector, Vector.sample.reserve 10 = some w ∧
      Vector.sample.capacity ≤ w.capacity) ∧
    Vector.sample.pop_back.capacity = Vector.sample.capacity := by
  have a := C18_capacity_monotone Vector.sample reachable_sample
    (by with_unfolding_all decide)
  exact ⟨by with_unfolding_all decide,
    ⟨_, Vector.result_of_isSome _ (by with_unfolding_all decide),
      a.1 10 _ (Vector.result_of_isSome _ (by with_unfolding_all decide))⟩,
    a.2.2.2.1⟩

/-- C19, evaluated on the code: `reserve(2)` on a newly constructed Vector (capacity 0)
calls `reallocate(data, 2)`; `2 - 1` exceeds the capacity, the array at `data` has no
slot 0, and `memcpy` reads one element from it: the precondition of `reallocate` does not
hold for this call. -/
theorem C19_reserve_call_reads_past_buffer :
    Reachable (Vector.new Heap.init) ∧
    (Vector.new Heap.init).reserve_call 2 = some ((Vector.new Heap.init).data, 2) ∧
    ¬ (size_t_pred 2 ≤ (Vector.new Heap.init).capacity) ∧
    ¬ Allocator.reallocate_pre (Vector.new Heap.init).heap (Vector.new Heap.init).data 2 ∧
    (Vector.new Heap.init).heap.valid { blk := (Vector.new Heap.init).data, off := 0 }
      = false :=
  ⟨Reachable.new Heap.init, by with_unfolding_all decide, by with_unfolding_all decide,
   by with_unfolding_all decide, by with_unfolding_all decide⟩

/-- C20: for a capacity below `2 ^ 64` and `count > capacity`, the capacity that the growth
branch of `resize` passes to `reserve` is at least `count` and above the old capacity;
when `capacity_ * 2` wraps, the test `count > capacity_ * 2` is true and the request is
`count`; a `resize(count)` with `count > size()` that returns ends with exactly that
capacity, and it does return when the Vector owns its buffer. -/
theorem C20_growth_request_no_wrap (capacity_ count : Nat) (hc : capacity_ < SIZE_MOD)
    (hn : capacity_ < count) :
    count ≤ Vector.growth_request capacity_ count ∧
    capacity_ < Vector.growth_request capacity_ count ∧
    (SIZE_MOD ≤ capacity_ * 2 →
      capacity_ * 2 % SIZE_MOD < count ∧ Vector.growth_request capacity_ count = count) ∧
    (∀ v w : Vector, v.capacity_ = capacity_ → v.size_ < count → v.resize count = some w →
      w.capacity_ = Vector.growth_request capacity_ count) ∧
    (∀ v : Vector, v.owns → v.capacity_ = capacity_ → v.size_ < count →
      ∃ w : Vector, v.resize count = some w ∧
        w.capacity_ = Vector.growth_request capacity_ count) := by
  have hlink : ∀ v w : Vector, v.capacity_ = capacity_ → v.size_ < count →
      v.resize count = some w → w.capacity_ = Vector.growth_request capacity_ count := by
    intro v w hv hs hw
    unfold Vector.growth_request
    rw [(Vector.resize_counters v w count hw).2, if_neg (by omega), hv, if_pos hn]
  refine ⟨?_, ?_, ?_, hlink, ?_⟩
  · unfold Vector.growth_request
    split <;> omega
  · unfold Vector.growth_request
    split <;> omega
  · intro hw
    have h1 := wrap_double_lt SIZE_MOD capacity_ hc hw
    have h2 : capacity_ * 2 % SIZE_MOD < count := by omega
    exact ⟨h2, by unfold Vector.growth_request; exact if_pos h2⟩
  · intro v ho hv hs
    obtain ⟨w, hw, _⟩ := Vector.resize_grow_of_owns v count ho hs
    exact ⟨w, hw, hlink v w hv hs hw⟩

theorem C20_growth_request_no_wrap_witness :
    Vector.growth_request 9223372036854775808 9223372036854775809 = 9223372036854775809 ∧
    (3 : Nat) < Vector.growth_request 3 4 :=
  ⟨((C20_growth_request_no_wrap 9223372036854775808 9223372036854775809
      (by with_unfolding_all decide) (by with_unfolding_all decide)).2.2.1
      (by with_unfolding_all decide)).2,
   (C20_growth_request_no_wrap 3 4 (by with_unfolding_all decide)
      (by with_unfolding_all decide)).2.1⟩

end HW8
